import Mathlib

/-!
Verification of the harpy streaming runtime (actors, reactors, windows).

The definitions below are a shallow embedding of the Python source:

* pymod models the Python float modulo used by the window assigners;
* dictGet / dictInsert / dictRemove model Python dict operations on an
  association list (insertion order preserved, keys unique in well-formed
  states);
* find_method / actorReceiveEmit embed harpy/actor.py;
* receiveMsg_InitMsg / receiveMsg_UnsubscribeMsg embed harpy/_baseActor.py;
* receiveMsg_ReactToMsg / reactorEmitsOnInput embed harpy/reactor.py;
* fixedWindowsFor / slidingWindowsFor / windowHandleEmit embed harpy/window.py.

Timestamps and durations are real-valued seconds in the source (Python
floats); they are modelled by rationals, which keep every definition
executable.
-/

/-- Python float modulo a % b, written out as a - b * floor (a / b); for a
positive divisor the result lies in [0, b).  This is the expression the window
assigners rely on. -/
def pymod (a b : ℚ) : ℚ := a - b * ⌊a / b⌋

/-- Result of the Python modulo by a positive divisor is nonnegative. -/
theorem pymod_nonneg (a : ℚ) {b : ℚ} (hb : 0 < b) : 0 ≤ pymod a b := by
  have h := Int.floor_le (a / b)
  have h2 : b * ((⌊a / b⌋ : ℚ)) ≤ b * (a / b) :=
    mul_le_mul_of_nonneg_left h (le_of_lt hb)
  have hba : b * (a / b) = a := by field_simp
  unfold pymod
  linarith

/-- Result of the Python modulo by a positive divisor is below the divisor. -/
theorem pymod_lt (a : ℚ) {b : ℚ} (hb : 0 < b) : pymod a b < b := by
  have h := Int.lt_floor_add_one (a / b)
  have h2 : b * (a / b) < b * ((⌊a / b⌋ : ℚ) + 1) := by
    exact mul_lt_mul_of_pos_left h hb
  have hba : b * (a / b) = a := by field_simp
  have h3 : b * ((⌊a / b⌋ : ℚ) + 1) = b * (⌊a / b⌋ : ℚ) + b := by ring
  unfold pymod
  linarith

/-- Lookup in a Python-dict association list (first binding of the key wins;
keys are unique in well-formed dict states). -/
def dictGet {k v : Type} [DecidableEq k] : List (k × v) → k → Option v
  | [], _ => none
  | e :: rest, key => if e.1 = key then some e.2 else dictGet rest key

/-- Store a binding in a Python-dict association list: replace the binding of
the key in place when present (Python dicts keep the original insertion
position on update), otherwise append a new binding. -/
def dictInsert {k v : Type} [DecidableEq k] : List (k × v) → k → v → List (k × v)
  | [], key, val => [(key, val)]
  | e :: rest, key, val =>
    if e.1 = key then (key, val) :: rest else e :: dictInsert rest key val

/-- Delete the binding of a key from a Python-dict association list. -/
def dictRemove {k v : Type} [DecidableEq k] : List (k × v) → k → List (k × v)
  | [], _ => []
  | e :: rest, key => if e.1 = key then rest else e :: dictRemove rest key

/-- A monitoring entry of an actor: upstream address, stream name and the
registered callback (Actor.monitor appends such triples). -/
structure MonEntry (μ : Type) where
  observing : Nat
  stream : String
  method : μ

/-- Embeds Actor._find_method.  The source loop is
for (observing, stream, method) in self._harpy_monitoring: which rebinds the
name stream, shadowing the parameter of the same name; the test
observing == sender and stream == stream therefore compares the entry stream
with itself, so only the sender is filtered. -/
def find_method {μ : Type} : List (MonEntry μ) → Nat → String → Option μ
  | [], _, _ => none
  | e :: rest, sender, stream =>
    if e.observing = sender ∧ e.stream = e.stream then some e.method
    else find_method rest sender stream

/-- Embeds Actor.receiveMsg_EmitMsg: look the callback up with _find_method
and, when one is found, invoke it on the emitted value.  Returns the invoked
callback together with its argument, or none when the message is dropped. -/
def actorReceiveEmit {μ α : Type} (monitoring : List (MonEntry μ)) (sender : Nat)
    (value : α) (stream : String) : Option (μ × α) :=
  match find_method monitoring sender stream with
  | some m => some (m, value)
  | none => none

/-- Initialization state of a component: the init-pending flag and the list of
argument tuples __init_actor__ has been invoked with, in order. -/
structure InitState (π : Type) where
  initPending : Bool
  initCalls : List π

/-- Embeds BaseActor.receiveMsg_InitMsg: when the _harpy_init_pending
attribute is still present, drop it and run __init_actor__ on the carried
arguments; otherwise raise a RuntimeError.  The second component reports the
raised error, if any; on an error the state is unchanged and __init_actor__ is
not invoked. -/
def receiveMsg_InitMsg {π : Type} (st : InitState π) (args : π) :
    InitState π × Option String :=
  if st.initPending then
    ({ initPending := false, initCalls := st.initCalls ++ [args] }, none)
  else (st, some "Actor received multiple init messages")

/-- Embeds Python list.remove: remove the first occurrence of the element, or
raise ValueError (modelled as none) when the element is absent. -/
def listRemove {v : Type} [DecidableEq v] : List v → v → Option (List v)
  | [], _ => none
  | y :: ys, x => if y = x then some ys else (listRemove ys x).map (fun l => y :: l)

/-- Lookup in the defaultdict(list) of subscribers: a missing stream reads as
the empty list. -/
def subscribersGet (subs : List (String × List Nat)) (stream : String) : List Nat :=
  (dictGet subs stream).getD []

/-- Embeds BaseActor.receiveMsg_UnsubscribeMsg, that is
self._harpy_subscribers[msg.stream].remove(sender) on a defaultdict(list):
removing a sender that is absent from the stream list raises ValueError. -/
def receiveMsg_UnsubscribeMsg (subs : List (String × List Nat)) (sender : Nat)
    (stream : String) : Except String (List (String × List Nat)) :=
  match listRemove (subscribersGet subs stream) sender with
  | some l => Except.ok (dictInsert subs stream l)
  | none => Except.error "ValueError: list.remove(x): x not in list"

/-- A reactor source binding appended by receiveMsg_ReactToMsg: upstream
address, upstream stream and the source name whose Subject the dict lookup
produced (Subjects are identified here by their source name, the key under
which Reactor.__init__ stores them). -/
structure ReactorBinding where
  addr : Nat
  stream : String
  source : String

/-- Embeds Reactor.receiveMsg_ReactToMsg.  The dict lookup
self._harpy_sources[msg.source] runs first and raises KeyError when the source
name was not declared (Reactor.__init__ populates _harpy_sources with exactly
the declared source names); only on success is the binding appended and a
Subscribe message sent upstream.  Returns the bindings list, the sent
subscribe messages and the raised error, if any. -/
def receiveMsg_ReactToMsg (sourceNames : List String)
    (bindings : List ReactorBinding) (refAddr : Nat) (source stream : String) :
    List ReactorBinding × List (Nat × String) × Option String :=
  if source ∈ sourceNames then
    (bindings ++ [{ addr := refAddr, stream := stream, source := source }],
     [(refAddr, stream)], none)
  else (bindings, [], some "KeyError")

/-- Embeds the dict branch of Reactor.__init_actor__ for pipelines whose
output observables each apply a pure function to the source input: the
terminal subscription observable.subscribe(lambda value, s=stream:
self.emit(value, s)) captures the stream name of its own dict entry (the
default argument s=stream binds at lambda definition time), so a source input
x leads to emitting (f x) on the stream of that entry. -/
def reactorEmitsOnInput {α β : Type} (dag : List (String × (α → β))) (x : α) :
    List (β × String) :=
  dag.map (fun sf => (sf.2 x, sf.1))

/-- Embeds FixedWindow.windows_for with length L and offset O. -/
def fixedWindowsFor (L O ts : ℚ) : List (ℚ × ℚ) :=
  let start := ts - pymod (ts - O) L
  [(start, start + L)]

/-- Embeds the while loop of SlidingWindow.windows_for; the extra fuel
argument bounds the number of iterations (the source loop runs while
window > timestamp - length, stepping window down by the frequency each
iteration, so with slideFuel as fuel the loop stops on the guard, see
slideLoop_fuel_adequate). -/
def slideLoop (ts L F : ℚ) : Nat → ℚ → List (ℚ × ℚ)
  | 0, _ => []
  | fuel + 1, w =>
    if ts - L < w then (w, w + L) :: slideLoop ts L F fuel (w - F) else []

/-- Iteration bound for the sliding-window loop. -/
def slideFuel (L F : ℚ) : Nat := (⌈L / F⌉).toNat + 1

/-- Embeds SlidingWindow.windows_for with frequency F, length L and offset
O. -/
def slidingWindowsFor (F L O ts : ℚ) : List (ℚ × ℚ) :=
  slideLoop ts L F (slideFuel L F) (ts - pymod (ts - O) F)

/-- Keys of window pane state: ((start, end), key). -/
abbrev PaneKey (κ : Type) := (ℚ × ℚ) × κ

/-- Pane state of a window: the dict ((start, end), key) to accumulator. -/
abbrev PaneState (κ β : Type) := List (PaneKey κ × β)

/-- User hooks of a Window subclass: timestamp extraction, key extraction and
accumulation.  Calls to window_complete are modelled by recording the passed
accumulators in the handler result. -/
structure WindowUser (α β κ : Type) where
  timestamp : α → ℚ
  key : α → κ
  add_to_window : α → Option β → β

/-- Embeds the first loop of Window.receiveMsg_EmitMsg: each assigned pane
receives the value folded into its accumulator; a missing pane reads as None
(dict.get). -/
def windowAssign {α β κ : Type} [DecidableEq κ] (user : WindowUser α β κ)
    (windows : List (ℚ × ℚ)) (k : κ) (value : α) (panes : PaneState κ β) :
    PaneState κ β :=
  windows.foldl
    (fun st w => dictInsert st (w, k) (user.add_to_window value (dictGet st (w, k))))
    panes

/-- Embeds one step of the trigger loop of Window.receiveMsg_EmitMsg: when the
current timestamp passes the pane end, fetch the pane, record the
window_complete call and delete the entry.  The none branch mirrors a KeyError
on the dict lookup; it is unreachable because the iterated keys are a snapshot
of the dict keys and each is deleted at most once. -/
def triggerStep {κ β : Type} [DecidableEq κ] (ts : ℚ)
    (acc : PaneState κ β × List β) (pk : PaneKey κ) : PaneState κ β × List β :=
  if pk.1.2 < ts then
    match dictGet acc.1 pk with
    | some pane => (dictRemove acc.1 pk, acc.2 ++ [pane])
    | none => acc
  else acc

/-- Embeds the trigger loop of Window.receiveMsg_EmitMsg: iterate over a
snapshot of the pane keys (list(self._harpy_window_panes.keys())), completing
and deleting every pane whose end lies strictly before the current
timestamp. -/
def triggerScan {κ β : Type} [DecidableEq κ] (ts : ℚ) (panes : PaneState κ β) :
    PaneState κ β × List β :=
  (panes.map Prod.fst).foldl (triggerStep ts) (panes, [])

/-- Embeds Window.receiveMsg_EmitMsg in full: extract key and timestamp,
assign the value to its panes, then run the trigger scan.  Returns the new
pane state and the accumulators passed to window_complete, in call order. -/
def windowHandleEmit {α β κ : Type} [DecidableEq κ]
    (assigner : ℚ → α → List (ℚ × ℚ)) (user : WindowUser α β κ)
    (panes : PaneState κ β) (value : α) : PaneState κ β × List β :=
  let k := user.key value
  let ts := user.timestamp value
  let windows := assigner ts value
  triggerScan ts (windowAssign user windows k value panes)

/-- State of a window component: the (upstream address, stream) bindings
recorded by Window.receiveMsg_ReactToMsg, and the pane state. -/
structure WindowState (κ β : Type) where
  subscriptions : List (Nat × String)
  panes : PaneState κ β

/-- Embeds the window message layer for an inbound EmitMsg: the source handler
reads msg.value only; the sender, msg.stream and the recorded subscriptions
are never consulted. -/
def windowReceiveEmit {α β κ : Type} [DecidableEq κ]
    (assigner : ℚ → α → List (ℚ × ℚ)) (user : WindowUser α β κ)
    (w : WindowState κ β) (sender : Nat) (value : α) (stream : String) :
    WindowState κ β × List β :=
  let r := windowHandleEmit assigner user w.panes value
  ({ subscriptions := w.subscriptions, panes := r.1 }, r.2)

/-- Lookup skips a head entry with a different key. -/
theorem dictGet_cons_ne {k v : Type} [DecidableEq k] (e : k × v) (rest : List (k × v))
    (key : k) (h : e.1 ≠ key) : dictGet (e :: rest) key = dictGet rest key := by
  simp [dictGet, h]

/-- Deletion keeps a head entry with a different key. -/
theorem dictRemove_cons_ne {k v : Type} [DecidableEq k] (e : k × v) (rest : List (k × v))
    (key : k) (h : e.1 ≠ key) : dictRemove (e :: rest) key = e :: dictRemove rest key := by
  simp [dictRemove, h]

/-- A trigger step on a state whose head entry has a different key leaves the
head entry in place and acts on the tail state. -/
theorem triggerStep_cons_ne {κ β : Type} [DecidableEq κ] (ts : ℚ)
    (p : PaneKey κ × β) (st : PaneState κ β) (comp : List β) (pk : PaneKey κ)
    (h : p.1 ≠ pk) :
    triggerStep ts (p :: st, comp) pk =
      (p :: (triggerStep ts (st, comp) pk).1, (triggerStep ts (st, comp) pk).2) := by
  unfold triggerStep
  by_cases hlt : pk.1.2 < ts
  · rw [if_pos hlt, if_pos hlt, dictGet_cons_ne p st pk h]
    cases hd : dictGet st pk with
    | none => rfl
    | some pane => simp [dictRemove_cons_ne p st pk h]
  · rw [if_neg hlt, if_neg hlt]

/-- Folding trigger steps over keys that avoid the head entry leaves the head
entry in place. -/
theorem foldl_triggerStep_cons {κ β : Type} [DecidableEq κ] (ts : ℚ)
    (p : PaneKey κ × β) :
    ∀ (ks : List (PaneKey κ)) (st : PaneState κ β) (comp : List β), p.1 ∉ ks →
      List.foldl (triggerStep ts) (p :: st, comp) ks =
        (p :: (List.foldl (triggerStep ts) (st, comp) ks).1,
         (List.foldl (triggerStep ts) (st, comp) ks).2) := by
  intro ks
  induction ks with
  | nil => intro st comp _; rfl
  | cons k ks ih =>
    intro st comp hmem
    have h1 : p.1 ≠ k := fun he => hmem (he ▸ List.mem_cons_self k ks)
    have h2 : p.1 ∉ ks := fun he => hmem (List.mem_cons_of_mem k he)
    rw [List.foldl_cons, List.foldl_cons, triggerStep_cons_ne ts p st comp k h1]
    exact ih (triggerStep ts (st, comp) k).1 (triggerStep ts (st, comp) k).2 h2

/-- Characterization of the trigger fold on a state with unique keys: the
surviving entries are exactly those whose pane end has not been passed, and
the recorded window_complete calls are exactly the accumulators of the other
entries, in state order. -/
theorem foldl_triggerStep_eq {κ β : Type} [DecidableEq κ] (ts : ℚ) :
    ∀ (panes : PaneState κ β) (comp : List β),
      (panes.map Prod.fst).Nodup →
      List.foldl (triggerStep ts) (panes, comp) (panes.map Prod.fst) =
        (panes.filter (fun e => !decide (e.1.1.2 < ts)),
         comp ++ (panes.filter (fun e => decide (e.1.1.2 < ts))).map Prod.snd) := by
  intro panes
  induction panes with
  | nil => intro comp _; simp
  | cons p rest ih =>
    intro comp hnd
    have hni : p.1 ∉ rest.map Prod.fst := (List.nodup_cons.mp hnd).1
    have hnd2 : (rest.map Prod.fst).Nodup := (List.nodup_cons.mp hnd).2
    rw [List.map_cons, List.foldl_cons]
    by_cases hlt : p.1.1.2 < ts
    · have hstep : triggerStep ts (p :: rest, comp) p.1 = (rest, comp ++ [p.2]) := by
        unfold triggerStep
        rw [if_pos hlt]
        have hget : dictGet (p :: rest) p.1 = some p.2 := by simp [dictGet]
        have hrem : dictRemove (p :: rest) p.1 = rest := by simp [dictRemove]
        rw [hget, hrem]
      rw [hstep, ih (comp ++ [p.2]) hnd2]
      simp [List.filter_cons, hlt]
    · have hstep : triggerStep ts (p :: rest, comp) p.1 = (p :: rest, comp) := by
        unfold triggerStep
        rw [if_neg hlt]
      rw [hstep, foldl_triggerStep_cons ts p (rest.map Prod.fst) rest comp hni,
        ih comp hnd2]
      simp [List.filter_cons, hlt]

/-- The trigger scan on a state with unique keys keeps exactly the panes whose
end has not been passed and completes exactly the others, in order. -/
theorem triggerScan_eq {κ β : Type} [DecidableEq κ] (ts : ℚ) (panes : PaneState κ β)
    (hnd : (panes.map Prod.fst).Nodup) :
    triggerScan ts panes =
      (panes.filter (fun e => !decide (e.1.1.2 < ts)),
       (panes.filter (fun e => decide (e.1.1.2 < ts))).map Prod.snd) := by
  unfold triggerScan
  rw [foldl_triggerStep_eq ts panes [] hnd]
  simp

/-- Keys after a dict store: unchanged when the key was present, extended by
the key otherwise. -/
theorem dictInsert_keys {k v : Type} [DecidableEq k] (d : List (k × v)) (key : k)
    (val : v) :
    (dictInsert d key val).map Prod.fst =
      if key ∈ d.map Prod.fst then d.map Prod.fst else d.map Prod.fst ++ [key] := by
  induction d with
  | nil => simp [dictInsert]
  | cons e rest ih =>
    by_cases he : e.1 = key
    · simp [dictInsert, he]
    · have hne : key ≠ e.1 := fun h => he h.symm
      by_cases hmem : key ∈ rest.map Prod.fst
      · simp [dictInsert, he, ih, hmem, hne]
      · simp [dictInsert, he, ih, hmem, hne]

/-- A dict store preserves uniqueness of the keys. -/
theorem dictInsert_keys_nodup {k v : Type} [DecidableEq k] (d : List (k × v))
    (key : k) (val : v) (hnd : (d.map Prod.fst).Nodup) :
    ((dictInsert d key val).map Prod.fst).Nodup := by
  rw [dictInsert_keys]
  by_cases hmem : key ∈ d.map Prod.fst
  · rwa [if_pos hmem]
  · rw [if_neg hmem]
    simp [List.nodup_append, hnd, hmem]

/-- The pane-assignment fold preserves uniqueness of the pane keys. -/
theorem windowAssign_keys_nodup {α β κ : Type} [DecidableEq κ]
    (user : WindowUser α β κ) (windows : List (ℚ × ℚ)) (k : κ) (value : α) :
    ∀ (panes : PaneState κ β), (panes.map Prod.fst).Nodup →
      ((windowAssign user windows k value panes).map Prod.fst).Nodup := by
  induction windows with
  | nil => intro panes hnd; exact hnd
  | cons w ws ih =>
    intro panes hnd
    exact ih (dictInsert panes (w, k) (user.add_to_window value (dictGet panes (w, k))))
      (dictInsert_keys_nodup panes (w, k) _ hnd)

/-- A dict store leaves the bindings of every other key unchanged. -/
theorem dictGet_dictInsert_ne {k v : Type} [DecidableEq k] (d : List (k × v))
    (key key2 : k) (val : v) (h : key2 ≠ key) :
    dictGet (dictInsert d key val) key2 = dictGet d key2 := by
  induction d with
  | nil => simp [dictInsert, dictGet, Ne.symm h]
  | cons e rest ih =>
    by_cases he : e.1 = key
    · have h2 : key ≠ key2 := fun hk => h hk.symm
      simp [dictInsert, dictGet, he, h2]
    · by_cases he2 : e.1 = key2
      · simp [dictInsert, dictGet, he, he2, h]
      · simp [dictInsert, dictGet, he, he2, ih]

/-- Python list.remove succeeds on a present element and removes exactly its
first occurrence (List.erase). -/
theorem listRemove_of_mem {v : Type} [DecidableEq v] {l : List v} {x : v}
    (h : x ∈ l) : listRemove l x = some (l.erase x) := by
  induction l with
  | nil => cases h
  | cons y ys ih =>
    by_cases hy : y = x
    · subst hy
      simp [listRemove, List.erase_cons_head]
    · have h2 : x ∈ ys := by
        rcases List.mem_cons.mp h with h3 | h3
        · exact absurd h3.symm hy
        · exact h3
      simp [listRemove, hy, ih h2, List.erase_cons_tail, hy]

/-- Python list.remove raises ValueError on an absent element. -/
theorem listRemove_of_not_mem {v : Type} [DecidableEq v] {l : List v} {x : v}
    (h : x ∉ l) : listRemove l x = none := by
  induction l with
  | nil => rfl
  | cons y ys ih =>
    have hy : y ≠ x := fun he => h (he ▸ List.mem_cons_self y ys)
    have h2 : x ∉ ys := fun he => h (List.mem_cons_of_mem y he)
    simp [listRemove, hy, ih h2]

/-- Every pane produced by the sliding loop from a start at or below the
timestamp contains the timestamp (lower bound from the decreasing start, upper
bound from the loop guard), provided the frequency is nonnegative. -/
theorem slideLoop_mem_bounds (ts L F : ℚ) (hF : 0 ≤ F) :
    ∀ (fuel : Nat) (w : ℚ), w ≤ ts →
      ∀ p ∈ slideLoop ts L F fuel w, p.1 ≤ ts ∧ ts < p.2 := by
  intro fuel
  induction fuel with
  | zero => intro w _ p hp; simp [slideLoop] at hp
  | succ n ih =>
    intro w hw p hp
    simp only [slideLoop] at hp
    by_cases hg : ts - L < w
    · rw [if_pos hg] at hp
      rcases List.mem_cons.mp hp with h | h
      · subst h
        exact ⟨hw, show ts < w + L by linarith⟩
      · exact ih (w - F) (by linarith) p h
    · rw [if_neg hg] at hp
      cases hp

/-- Once some iteration within the fuel bound fails the loop guard, adding
fuel does not change the result of the sliding loop. -/
theorem slideLoop_stable (ts L F : ℚ) :
    ∀ (fuel : Nat) (w : ℚ), (∃ j : Nat, j < fuel ∧ w - j * F ≤ ts - L) →
      ∀ extra : Nat, slideLoop ts L F (fuel + extra) w = slideLoop ts L F fuel w := by
  intro fuel
  induction fuel with
  | zero =>
    intro w hj
    rcases hj with ⟨j, hj0, _⟩
    exact absurd hj0 (Nat.not_lt_zero j)
  | succ n ih =>
    intro w hj extra
    rcases hj with ⟨j, hjn, hjle⟩
    have hsucc : n + 1 + extra = (n + extra) + 1 := by omega
    by_cases hg : ts - L < w
    · have hj0 : j ≠ 0 := by
        intro h0
        subst h0
        simp at hjle
        linarith
      rcases Nat.exists_eq_succ_of_ne_zero hj0 with ⟨j1, rfl⟩
      have hrec : (w - F) - (j1 : ℚ) * F ≤ ts - L := by
        push_cast at hjle
        linarith
      rw [hsucc]
      simp only [slideLoop]
      rw [if_pos hg, if_pos hg]
      have := ih (w - F) ⟨j1, Nat.lt_of_succ_lt_succ hjn, hrec⟩ extra
      rw [this]
    · rw [hsucc]
      simp only [slideLoop]
      rw [if_neg hg, if_neg hg]

/-- With a positive frequency and a loop start at or below the timestamp, the
fuel used by slidingWindowsFor is adequate: any extra fuel yields the same
pane list, so the fueled loop agrees with the unbounded source loop. -/
theorem slideLoop_fuel_adequate (ts L F : ℚ) (hF : 0 < F) (w : ℚ) (hw : w ≤ ts) :
    ∀ extra : Nat,
      slideLoop ts L F (slideFuel L F + extra) w =
        slideLoop ts L F (slideFuel L F) w := by
  apply slideLoop_stable
  refine ⟨(⌈L / F⌉).toNat, Nat.lt_succ_self _, ?_⟩
  have hceil : (L / F) ≤ ((⌈L / F⌉).toNat : ℚ) := by
    calc L / F ≤ ((⌈L / F⌉ : ℤ) : ℚ) := Int.le_ceil _
    _ ≤ ((⌈L / F⌉).toNat : ℚ) := by exact_mod_cast Int.self_le_toNat ⌈L / F⌉
  have hLle : L ≤ ((⌈L / F⌉).toNat : ℚ) * F := by
    rw [div_le_iff₀ hF] at hceil
    linarith
  linarith

/-- Window user of scenario S4 of the spec: a value is its own timestamp,
there is no key, and a pane sums its values ((acc or 0) + v). -/
def sumUser : WindowUser ℚ ℚ Unit where
  timestamp := fun v => v
  key := fun _ => ()
  add_to_window := fun v acc => acc.getD 0 + v

/-- Assigner installed by the decorator FixedWindow(timedelta(seconds=10)). -/
def fixed10 : ℚ → ℚ → List (ℚ × ℚ) := fun ts _ => fixedWindowsFor 10 0 ts

/-- C1: the claim says that on Emit the callback of the first monitoring
triple matching BOTH the sender and the stream is invoked, and that with two
monitored streams of one upstream an emit on one stream never invokes the
callback of the other.  The code violates this: with monitoring list
[(0, a, f), (0, b, g)] (callbacks f = 0, g = 1), an Emit on stream b from
sender 0 invokes f, the callback registered for stream a, because
the loop variable stream of _find_method shadows its parameter and the stream
filter is vacuous. -/
theorem C1_find_method_ignores_stream :
    actorReceiveEmit [⟨0, "a", 0⟩, ⟨0, "b", 1⟩] 0 (5 : Int) "b" = some (0, 5) ∧
    find_method [⟨0, "a", (0 : Nat)⟩, ⟨0, "b", 1⟩] 0 "b" = some 0 :=
  ⟨rfl, rfl⟩

/-- C2, counterexample: a window with an empty bindings list still ingests an
inbound Emit — value 3 from the unbound pair (sender 0, stream default)
creates pane [0, 10) with accumulator 3 instead of leaving the pane state
unchanged and calling no user hook. -/
theorem C2_cex_unbound_emit_ingested :
    ((0 : Nat), "default") ∉
        (WindowState.mk [] ([] : PaneState Unit ℚ)).subscriptions ∧
    (windowReceiveEmit fixed10 sumUser (WindowState.mk [] []) 0 (3 : ℚ)
        "default").1.panes = [((((0 : ℚ), (10 : ℚ)), ()), (3 : ℚ))] ∧
    (WindowState.mk [] ([] : PaneState Unit ℚ)).panes = [] := by
  refine ⟨by simp, ?_, rfl⟩
  show (windowHandleEmit fixed10 sumUser [] 3).1 = [((((0 : ℚ), (10 : ℚ)), ()), (3 : ℚ))]
  norm_num [windowHandleEmit, windowAssign, triggerScan, triggerStep, dictInsert,
    dictGet, sumUser, fixed10, fixedWindowsFor, pymod]

/-- C2 (amended): the window Emit handler ingests every inbound Emit
unconditionally — it never consults the sender, the stream or the recorded
bindings, so the resulting pane state and the window_complete calls are
identical for bound and unbound (sender, stream) pairs and always equal the
plain ingestion of the value. -/
theorem C2_emit_ingested_regardless_of_binding {α β κ : Type} [DecidableEq κ]
    (assigner : ℚ → α → List (ℚ × ℚ)) (user : WindowUser α β κ)
    (subs subs2 : List (Nat × String)) (panes : PaneState κ β)
    (sender sender2 : Nat) (value : α) (stream stream2 : String) :
    (windowReceiveEmit assigner user ⟨subs, panes⟩ sender value stream).1.panes =
      (windowReceiveEmit assigner user ⟨subs2, panes⟩ sender2 value stream2).1.panes ∧
    (windowReceiveEmit assigner user ⟨subs, panes⟩ sender value stream).2 =
      (windowReceiveEmit assigner user ⟨subs2, panes⟩ sender2 value stream2).2 ∧
    (windowReceiveEmit assigner user ⟨subs, panes⟩ sender value stream).1.panes =
      (windowHandleEmit assigner user panes value).1 :=
  ⟨rfl, rfl, rfl⟩

/-- C3: after ingesting a message with extracted timestamp ts, exactly the
pane entries with ts > end have been removed, window_complete was recorded
exactly once per removed entry with its final accumulator (in state order),
and every entry with end ≥ ts remains, its accumulator updated only by the
assignments of the current message (the windowAssign fold). -/
theorem C3_trigger_rule {α β κ : Type} [DecidableEq κ]
    (assigner : ℚ → α → List (ℚ × ℚ)) (user : WindowUser α β κ)
    (panes : PaneState κ β) (value : α)
    (hnd : (panes.map Prod.fst).Nodup) :
    windowHandleEmit assigner user panes value =
      ((windowAssign user (assigner (user.timestamp value) value) (user.key value)
          value panes).filter
         (fun e => !decide (e.1.1.2 < user.timestamp value)),
       ((windowAssign user (assigner (user.timestamp value) value) (user.key value)
          value panes).filter
         (fun e => decide (e.1.1.2 < user.timestamp value))).map Prod.snd) :=
  triggerScan_eq (user.timestamp value)
    (windowAssign user (assigner (user.timestamp value) value) (user.key value)
      value panes)
    (windowAssign_keys_nodup user (assigner (user.timestamp value) value)
      (user.key value) value panes hnd)

/-- C3, witness at scenario S4 step 3: from pane state with [0,10) holding 12
and input value 12 (timestamp 12), pane [10,20) is created with accumulator 12
and pane [0,10) is completed exactly once with its final accumulator 12. -/
theorem C3_trigger_rule_witness :
    (([((((0 : ℚ), (10 : ℚ)), ()), (12 : ℚ))].map Prod.fst).Nodup) ∧
    windowHandleEmit fixed10 sumUser [((((0 : ℚ), (10 : ℚ)), ()), (12 : ℚ))] 12 =
      ((windowAssign sumUser (fixed10 (sumUser.timestamp 12) 12) (sumUser.key 12)
          12 [((((0 : ℚ), (10 : ℚ)), ()), (12 : ℚ))]).filter
         (fun e => !decide (e.1.1.2 < sumUser.timestamp 12)),
       ((windowAssign sumUser (fixed10 (sumUser.timestamp 12) 12) (sumUser.key 12)
          12 [((((0 : ℚ), (10 : ℚ)), ()), (12 : ℚ))]).filter
         (fun e => decide (e.1.1.2 < sumUser.timestamp 12))).map Prod.snd) :=
  ⟨by simp, C3_trigger_rule fixed10 sumUser _ 12 (by simp)⟩

/-- C4: FixedWindow(L, offset 0) assigns timestamp ts the single pane
(k·L, (k+1)·L) with k = ⌊ts / L⌋, and an integer k satisfies
k·L ≤ ts < (k+1)·L exactly when k = ⌊ts / L⌋: the panes partition the line
into disjoint half-open intervals and each timestamp lies in exactly one. -/
theorem C4_fixed_offset0_partition (L ts : ℚ) (k : ℤ) (hL : 0 < L) :
    fixedWindowsFor L 0 ts =
      [(((⌊ts / L⌋ : ℤ) : ℚ) * L, (((⌊ts / L⌋ : ℤ) : ℚ) + 1) * L)] ∧
    (((k : ℚ) * L ≤ ts ∧ ts < ((k : ℚ) + 1) * L) ↔ k = ⌊ts / L⌋) := by
  constructor
  · simp only [fixedWindowsFor, pymod, sub_zero, List.cons.injEq, Prod.mk.injEq,
      and_true]
    constructor <;> ring
  · constructor
    · rintro ⟨h1, h2⟩
      have ha : (k : ℚ) ≤ ts / L := by
        rw [le_div_iff₀ hL]
        exact h1
      have hb : ts / L < (k : ℚ) + 1 := by
        rw [div_lt_iff₀ hL]
        exact h2
      exact (Int.floor_eq_iff.mpr ⟨ha, hb⟩).symm
    · rintro rfl
      constructor
      · have := Int.floor_le (ts / L)
        rw [le_div_iff₀ hL] at this
        exact this
      · have := Int.lt_floor_add_one (ts / L)
        rw [div_lt_iff₀ hL] at this
        exact this

/-- C4, witness at L = 10, ts = 7, k = 0. -/
theorem C4_fixed_offset0_partition_witness :
    (0 : ℚ) < 10 ∧
    (fixedWindowsFor 10 0 7 =
       [(((⌊(7 : ℚ) / 10⌋ : ℤ) : ℚ) * 10, (((⌊(7 : ℚ) / 10⌋ : ℤ) : ℚ) + 1) * 10)] ∧
     ((((0 : ℤ) : ℚ) * 10 ≤ 7 ∧ (7 : ℚ) < (((0 : ℤ) : ℚ) + 1) * 10) ↔
        (0 : ℤ) = ⌊(7 : ℚ) / 10⌋)) :=
  ⟨by norm_num, C4_fixed_offset0_partition 10 7 0 (by norm_num)⟩

/-- C5: with length equal to frequency (both positive), the sliding assigner
returns exactly one pane, and it is the pane the fixed assigner with the same
length and offset returns. -/
theorem C5_sliding_eq_fixed (F L O ts : ℚ) (hF : 0 < F) (hLF : L = F) :
    slidingWindowsFor F L O ts = fixedWindowsFor L O ts ∧
    (slidingWindowsFor F L O ts).length = 1 := by
  subst hLF
  have hne : L ≠ 0 := ne_of_gt hF
  have hm0 := pymod_nonneg (ts - O) hF
  have hmF := pymod_lt (ts - O) hF
  have hfuel : slideFuel L L = 2 := by
    unfold slideFuel
    rw [div_self hne, Int.ceil_one]
    rfl
  have hstep : ∀ (fuel : Nat) (w : ℚ), slideLoop ts L L (fuel + 1) w =
      if ts - L < w then (w, w + L) :: slideLoop ts L L fuel (w - L) else [] :=
    fun fuel w => rfl
  have hkey : slidingWindowsFor L L O ts =
      [(ts - pymod (ts - O) L, ts - pymod (ts - O) L + L)] := by
    unfold slidingWindowsFor
    rw [hfuel, show (2 : Nat) = 1 + 1 from rfl, hstep,
      if_pos (show ts - L < ts - pymod (ts - O) L by linarith),
      show (1 : Nat) = 0 + 1 from rfl, hstep,
      if_neg (show ¬ (ts - L < ts - pymod (ts - O) L - L) by push_neg; linarith)]
  rw [hkey]
  exact ⟨rfl, rfl⟩

/-- C5, witness at F = L = 10, offset 0, ts = 7. -/
theorem C5_sliding_eq_fixed_witness :
    (0 : ℚ) < 10 ∧ (10 : ℚ) = 10 ∧
    (slidingWindowsFor 10 10 0 7 = fixedWindowsFor 10 0 7 ∧
     (slidingWindowsFor 10 10 0 7).length = 1) :=
  ⟨by norm_num, rfl, C5_sliding_eq_fixed 10 10 0 7 (by norm_num) rfl⟩

/-- C6: the terminal subscriptions installed on a dict pipeline emit every
value on the stream of their own dict entry — the emitted stream names are
exactly the dict keys, in order, and the emitted values the corresponding
observable outputs; with pipeline {left: v*2, right: v*3} and input 5 the
emits are (10, left) and (15, right). -/
theorem C6_terminal_subscriptions_capture_stream {α β : Type}
    (dag : List (String × (α → β))) (x : α) :
    (reactorEmitsOnInput dag x).map Prod.snd = dag.map Prod.fst ∧
    (reactorEmitsOnInput dag x).map Prod.fst = dag.map (fun sf => sf.2 x) ∧
    reactorEmitsOnInput
        [("left", fun v : Int => v * 2), ("right", fun v : Int => v * 3)] 5 =
      [(10, "left"), (15, "right")] := by
  refine ⟨?_, ?_, rfl⟩ <;> simp [reactorEmitsOnInput]

/-- C7: from a fresh component state, the first Init runs __init_actor__
exactly once with the carried constructor arguments and raises nothing; a
second Init raises the multiple-init RuntimeError and does not run
__init_actor__ again. -/
theorem C7_init_once {π : Type} (a b : π) :
    (receiveMsg_InitMsg (InitState.mk true []) a).1.initCalls = [a] ∧
    (receiveMsg_InitMsg (InitState.mk true []) a).2 = none ∧
    (receiveMsg_InitMsg (receiveMsg_InitMsg (InitState.mk true []) a).1 b).2 =
      some "Actor received multiple init messages" ∧
    (receiveMsg_InitMsg (receiveMsg_InitMsg (InitState.mk true []) a).1 b).1.initCalls
      = [a] :=
  ⟨rfl, rfl, rfl, rfl⟩

/-- C8, counterexample: with subscribers {default: [1]}, the claim says an
Unsubscribe from the absent sender 2 is a silent no-op raising no error; the
source calls list.remove, which raises ValueError. -/
theorem C8_cex_unsubscribe_absent_raises :
    receiveMsg_UnsubscribeMsg [("default", [1])] 2 "default" =
      Except.error "ValueError: list.remove(x): x not in list" := rfl

/-- C8 (amended): when the sender occurs in subscribers[stream], exactly its
first occurrence is removed (List.erase) and the entry of every other stream
is unchanged; when it does not occur, the handler raises ValueError instead of
silently no-opping. -/
theorem C8_unsubscribe_erase_or_raise (subs : List (String × List Nat))
    (sender : Nat) (stream s2 : String) (h2 : s2 ≠ stream) :
    receiveMsg_UnsubscribeMsg subs sender stream =
      (if sender ∈ subscribersGet subs stream then
        Except.ok (dictInsert subs stream ((subscribersGet subs stream).erase sender))
      else Except.error "ValueError: list.remove(x): x not in list") ∧
    dictGet (dictInsert subs stream ((subscribersGet subs stream).erase sender)) s2 =
      dictGet subs s2 := by
  constructor
  · by_cases hmem : sender ∈ subscribersGet subs stream
    · rw [if_pos hmem]
      unfold receiveMsg_UnsubscribeMsg
      rw [listRemove_of_mem hmem]
    · rw [if_neg hmem]
      unfold receiveMsg_UnsubscribeMsg
      rw [listRemove_of_not_mem hmem]
  · exact dictGet_dictInsert_ne subs stream s2 _ h2

/-- C8, witness: removing present sender 1 from {default: [1,2,1], other: [3]}
removes the first 1 only and leaves stream other unchanged. -/
theorem C8_unsubscribe_erase_or_raise_witness :
    ("other" ≠ "default") ∧
    (receiveMsg_UnsubscribeMsg [("default", [1, 2, 1]), ("other", [3])] 1 "default" =
       (if 1 ∈ subscribersGet [("default", [1, 2, 1]), ("other", [3])] "default" then
         Except.ok (dictInsert [("default", [1, 2, 1]), ("other", [3])] "default"
           ((subscribersGet [("default", [1, 2, 1]), ("other", [3])] "default").erase 1))
       else Except.error "ValueError: list.remove(x): x not in list") ∧
     dictGet (dictInsert [("default", [1, 2, 1]), ("other", [3])] "default"
         ((subscribersGet [("default", [1, 2, 1]), ("other", [3])] "default").erase 1))
         "other" =
       dictGet [("default", [1, 2, 1]), ("other", [3])] "other") :=
  ⟨by decide, C8_unsubscribe_erase_or_raise _ 1 "default" "other" (by decide)⟩

/-- C9: with positive length (and, for sliding, positive frequency), every
pane returned by either assigner satisfies start ≤ ts < end; hence ts > end is
false and the pane the current value was just added to is never removed by the
trigger scan of the same message (which removes only panes with ts > end). -/
theorem C9_assigned_pane_contains_timestamp (F L O ts : ℚ) (p : ℚ × ℚ)
    (hL : 0 < L) (hF : 0 < F)
    (hmem : p ∈ fixedWindowsFor L O ts ∨ p ∈ slidingWindowsFor F L O ts) :
    p.1 ≤ ts ∧ ts < p.2 ∧ ¬ (ts > p.2) := by
  have hbase : p.1 ≤ ts ∧ ts < p.2 := by
    rcases hmem with h | h
    · have hm0 := pymod_nonneg (ts - O) hL
      have hmL := pymod_lt (ts - O) hL
      have hp : p = (ts - pymod (ts - O) L, ts - pymod (ts - O) L + L) := by
        simpa [fixedWindowsFor] using h
      rw [hp]
      exact ⟨show ts - pymod (ts - O) L ≤ ts by linarith,
        show ts < ts - pymod (ts - O) L + L by linarith⟩
    · have hm0 := pymod_nonneg (ts - O) hF
      have h2 : p ∈ slideLoop ts L F (slideFuel L F) (ts - pymod (ts - O) F) := h
      exact slideLoop_mem_bounds ts L F (le_of_lt hF) (slideFuel L F)
        (ts - pymod (ts - O) F) (by linarith) p h2
  exact ⟨hbase.1, hbase.2, lt_asymm hbase.2⟩

/-- C9, witness: the pane (0, 10) of FixedWindow(10, 0) at ts = 7 (with a
sliding frequency 5 in scope) contains 7 and is not removable at ts = 7. -/
theorem C9_assigned_pane_contains_timestamp_witness :
    (0 : ℚ) < 10 ∧ (0 : ℚ) < 5 ∧
    (((0 : ℚ), (10 : ℚ)).1 ≤ 7 ∧ (7 : ℚ) < ((0 : ℚ), (10 : ℚ)).2 ∧
      ¬ ((7 : ℚ) > ((0 : ℚ), (10 : ℚ)).2)) :=
  ⟨by norm_num, by norm_num,
    C9_assigned_pane_contains_timestamp 5 10 0 7 (0, 10) (by norm_num) (by norm_num)
      (Or.inl (by norm_num [fixedWindowsFor, pymod]))⟩

/-- C10: a ReactTo carrying a source name that is not among the declared
source names fails on the dict lookup (KeyError, fatal) and fails atomically:
the bindings list is unchanged and no Subscribe message is sent upstream. -/
theorem C10_react_to_unknown_source_atomic (sourceNames : List String)
    (bindings : List ReactorBinding) (refAddr : Nat) (source stream : String)
    (h : source ∉ sourceNames) :
    receiveMsg_ReactToMsg sourceNames bindings refAddr source stream =
      (bindings, [], some "KeyError") := by
  unfold receiveMsg_ReactToMsg
  rw [if_neg h]

/-- C10, witness: source y is not declared by a reactor with sources [x]. -/
theorem C10_react_to_unknown_source_atomic_witness :
    ("y" ∉ ["x"]) ∧
    receiveMsg_ReactToMsg ["x"] [] 7 "y" "default" = ([], [], some "KeyError") :=
  ⟨by decide, C10_react_to_unknown_source_atomic ["x"] [] 7 "y" "default" (by decide)⟩
